import Mathlib

/-!
Verification development for the MongoDB change-stream audit manager
(`src/ChangeStreamManager.ts`).

The embedding is shallow: the mutable class state (retry counter, options)
becomes explicit parameters and explicit state passing; BSON/JSON documents
become the inductive type `Value` below; Node's `crypto.createHash('sha256')
.update(s).digest('hex')` is modelled by a bit-faithful SHA-256 over the
UTF-8 bytes of `s` (`SHA256.sha256hex`); fallible code returns `Option`.
JavaScript numbers are modelled as integers (every number appearing in the
claims and in the audit pipeline is integral), and a `Date` value reaching
the serializer is modelled as the ISO string it stringifies to, supplied as
an explicit `now` parameter where the code calls `new Date()`.
-/

namespace SHA256

/-- 2^32; SHA-256 words are 32-bit. -/
def M32 : Nat := 4294967296

def w32 (n : Nat) : Nat := n % M32

def rotr (n x : Nat) : Nat := w32 ((x >>> n) ||| (x <<< (32 - n)))

def bsig0 (x : Nat) : Nat := (rotr 2 x) ^^^ (rotr 13 x) ^^^ (rotr 22 x)
def bsig1 (x : Nat) : Nat := (rotr 6 x) ^^^ (rotr 11 x) ^^^ (rotr 25 x)
def ssig0 (x : Nat) : Nat := (rotr 7 x) ^^^ (rotr 18 x) ^^^ (x >>> 3)
def ssig1 (x : Nat) : Nat := (rotr 17 x) ^^^ (rotr 19 x) ^^^ (x >>> 10)

/-- The 64 round constants of FIPS 180-4. -/
def K : List Nat :=
  [1116352408, 1899447441, 3049323471, 3921009573, 961987163, 1508970993,
   2453635748, 2870763221, 3624381080, 310598401, 607225278, 1426881987,
   1925078388, 2162078206, 2614888103, 3248222580, 3835390401, 4022224774,
   264347078, 604807628, 770255983, 1249150122, 1555081692, 1996064986,
   2554220882, 2821834349, 2952996808, 3210313671, 3336571891, 3584528711,
   113926993, 338241895, 666307205, 773529912, 1294757372, 1396182291,
   1695183700, 1986661051, 2177026350, 2456956037, 2730485921, 2820302411,
   3259730800, 3345764771, 3516065817, 3600352804, 4094571909, 275423344,
   430227734, 506948616, 659060556, 883997877, 958139571, 1322822218,
   1537002063, 1747873779, 1955562222, 2024104815, 2227730452, 2361852424,
   2428436474, 2756734187, 3204031479, 3329325298]

/-- Initial hash state. -/
def H0 : List Nat :=
  [1779033703, 3144134277, 1013904242, 2773480762,
   1359893119, 2600822924, 528734635, 1541459225]

/-- Big-endian 8-byte rendering of the bit length. -/
def be64 (n : Nat) : List Nat :=
  [(n >>> 56) % 256, (n >>> 48) % 256, (n >>> 40) % 256, (n >>> 32) % 256,
   (n >>> 24) % 256, (n >>> 16) % 256, (n >>> 8) % 256, n % 256]

/-- FIPS 180-4 padding: 0x80, zeros to 56 mod 64, then the 64-bit length. -/
def padBytes (msg : List Nat) : List Nat :=
  let len := msg.length
  msg ++ [0x80] ++ List.replicate ((119 - (len % 64)) % 64) 0 ++ be64 (len * 8)

/-- Big-endian 32-bit words from bytes. -/
def toWords : List Nat → List Nat
  | a :: b :: c :: d :: rest => (((a * 256 + b) * 256 + c) * 256 + d) :: toWords rest
  | _ => []

/-- Split into 64-byte blocks (fuel-structural so the kernel can evaluate it). -/
def chunksAux : Nat → List Nat → List (List Nat)
  | 0, _ => []
  | _, [] => []
  | fuel + 1, x :: rest => (x :: rest.take 63) :: chunksAux fuel (rest.drop 63)

def chunks (l : List Nat) : List (List Nat) := chunksAux l.length l

/-- One message-schedule extension step appends w[i] for i = current length. -/
def scheduleStep (w : List Nat) : List Nat :=
  let i := w.length
  w ++ [w32 (w.getD (i - 16) 0 + ssig0 (w.getD (i - 15) 0) + w.getD (i - 7) 0
        + ssig1 (w.getD (i - 2) 0))]

def schedule (w : List Nat) : Nat → List Nat
  | 0 => w
  | n + 1 => schedule (scheduleStep w) n

/-- Working state (a, b, c, d, e, f, g, h). -/
abbrev St := Nat × Nat × Nat × Nat × Nat × Nat × Nat × Nat

def round (st : St) (kw : Nat × Nat) : St :=
  let a := st.1
  let b := st.2.1
  let c := st.2.2.1
  let d := st.2.2.2.1
  let e := st.2.2.2.2.1
  let f := st.2.2.2.2.2.1
  let g := st.2.2.2.2.2.2.1
  let h := st.2.2.2.2.2.2.2
  let ch := (e &&& f) ^^^ ((e ^^^ 0xffffffff) &&& g)
  let maj := (a &&& b) ^^^ (a &&& c) ^^^ (b &&& c)
  let t1 := w32 (h + bsig1 e + ch + kw.1 + kw.2)
  let t2 := w32 (bsig0 a + maj)
  (w32 (t1 + t2), a, b, c, w32 (d + t1), e, f, g)

def processChunk (hs : List Nat) (chunk : List Nat) : List Nat :=
  let w := schedule (toWords chunk) 48
  let st := (K.zip w).foldl round
    (hs.getD 0 0, hs.getD 1 0, hs.getD 2 0, hs.getD 3 0,
     hs.getD 4 0, hs.getD 5 0, hs.getD 6 0, hs.getD 7 0)
  [w32 (hs.getD 0 0 + st.1), w32 (hs.getD 1 0 + st.2.1),
   w32 (hs.getD 2 0 + st.2.2.1), w32 (hs.getD 3 0 + st.2.2.2.1),
   w32 (hs.getD 4 0 + st.2.2.2.2.1), w32 (hs.getD 5 0 + st.2.2.2.2.2.1),
   w32 (hs.getD 6 0 + st.2.2.2.2.2.2.1), w32 (hs.getD 7 0 + st.2.2.2.2.2.2.2)]

/-- The eight 32-bit words of the digest of a byte message. -/
def sha256words (msg : List Nat) : List Nat :=
  (chunks (padBytes msg)).foldl processChunk H0

/-- Lowercase hex digit, the alphabet Node's `digest('hex')` uses. -/
def hexDigit (n : Nat) : Char := if n < 10 then Char.ofNat (48 + n) else Char.ofNat (87 + n)

/-- Eight hex digits of one 32-bit word, most significant first. -/
def wordHex (n : Nat) : String :=
  String.mk ((List.range 8).map (fun i => hexDigit ((n >>> (28 - 4 * i)) &&& 15)))

/-- UTF-8 bytes of one character. -/
def utf8Bytes (c : Char) : List Nat :=
  let n := c.toNat
  if n < 0x80 then [n]
  else if n < 0x800 then [0xc0 ||| (n >>> 6), 0x80 ||| (n &&& 0x3f)]
  else if n < 0x10000 then
    [0xe0 ||| (n >>> 12), 0x80 ||| ((n >>> 6) &&& 0x3f), 0x80 ||| (n &&& 0x3f)]
  else
    [0xf0 ||| (n >>> 18), 0x80 ||| ((n >>> 12) &&& 0x3f), 0x80 ||| ((n >>> 6) &&& 0x3f),
     0x80 ||| (n &&& 0x3f)]

def strBytes (s : String) : List Nat :=
  s.data.foldr (fun c acc => utf8Bytes c ++ acc) []

/-- Plain concatenation (kept first-order so length lemmas are direct). -/
def concatAll : List String → String
  | [] => ""
  | s :: rest => s ++ concatAll rest

/-- Model of Node `createHash('sha256').update(s).digest('hex')`. -/
def sha256hex (s : String) : String :=
  concatAll ((sha256words (strBytes s)).map wordHex)

end SHA256

namespace CSM

open SHA256 (sha256hex)

/-- A JavaScript/BSON runtime value as the audit pipeline sees it.
`vOid` is a BSON ObjectId carrying its 24-character hex rendering; JS
numbers are modelled as integers; `vObj` keeps the object's own enumerable
string-keyed properties in property (insertion) order, the order
`Object.entries`, spread and `JSON.stringify` all traverse. -/
inductive Value where
  | vNull : Value
  | vBool : Bool → Value
  | vNum : Int → Value
  | vStr : String → Value
  | vOid : String → Value
  | vArr : List Value → Value
  | vObj : List (String × Value) → Value

open Value

/-- JS truthiness of a `Value` (`!v` is its negation). -/
def jsTruthy : Value → Bool
  | vNull => false
  | vBool b => b
  | vNum n => n != 0
  | vStr s => s != ""
  | _ => true

/-- `typeof v === 'object'`: true for null, plain objects, arrays and
ObjectId instances; false for booleans, numbers and strings. -/
def typeofIsObject : Value → Bool
  | vNull => true
  | vOid _ => true
  | vArr _ => true
  | vObj _ => true
  | _ => false

/-- `ObjectId.isValid` restricted to the values that reach it in
`sanitizeAndHashSensitiveData` (it is called only after the `typeof`
guard, so only object-typed, truthy values arrive): an ObjectId instance
is valid, and no plain object, array or other composite in our value
universe is. -/
def isValidObjectId : Value → Bool
  | vOid _ => true
  | _ => false

end CSM

namespace CSM

open SHA256 (sha256hex hexDigit)
open Value

/-- `String.prototype.toLowerCase` (character-wise lowering). -/
def strToLower (s : String) : String := String.mk (s.data.map Char.toLower)

/-- Does `big` start with `pat`? -/
def leadsWith : List Char → List Char → Bool
  | [], _ => true
  | _ :: _, [] => false
  | a :: as, b :: bs => a == b && leadsWith as bs

def hasSubstr (pat : List Char) : List Char → Bool
  | [] => pat.isEmpty
  | c :: rest => leadsWith pat (c :: rest) || hasSubstr pat rest

/-- `hay.includes(pat)` on JS strings. -/
def strIncludes (hay pat : String) : Bool := hasSubstr pat.data hay.data

/-- `this.sensitiveFields.some((field) => key.toLowerCase().includes(field))`. -/
def isSensitiveKey (sensitiveFields : List String) (key : String) : Bool :=
  sensitiveFields.any (fun field => strIncludes (strToLower key) field)

mutual

/-- JS `String(v)` coercion: objects print as `[object Object]`, arrays
join their elements with commas (null slots print empty), an ObjectId
prints its hex string. -/
def jsToString : Value → String
  | vNull => "null"
  | vBool b => if b then "true" else "false"
  | vNum n => toString n
  | vStr s => s
  | vOid s => s
  | vArr l => String.intercalate "," (jsItems l)
  | vObj _ => "[object Object]"

def jsItems : List Value → List String
  | [] => []
  | vNull :: rest => "" :: jsItems rest
  | v :: rest => jsToString v :: jsItems rest

end

/-- JSON string escaping for one character, as `JSON.stringify` emits it. -/
def jsonEscapeChar (c : Char) : String :=
  if c = '"' then "\\\""
  else if c = '\\' then "\\\\"
  else if c = '\n' then "\\n"
  else if c = '\r' then "\\r"
  else if c = '\t' then "\\t"
  else if c = '\x08' then "\\b"
  else if c = '\x0c' then "\\f"
  else if c.toNat < 32 then "\\u00" ++ String.mk [hexDigit (c.toNat / 16), hexDigit (c.toNat % 16)]
  else String.mk [c]

def jsonQuote (s : String) : String :=
  "\"" ++ SHA256.concatAll (s.data.map jsonEscapeChar) ++ "\""

mutual

/-- `JSON.stringify` on our value universe. An ObjectId serializes through
its `toJSON` as its hex string; object keys appear in property order. -/
def jsonStringify : Value → String
  | vNull => "null"
  | vBool b => if b then "true" else "false"
  | vNum n => toString n
  | vStr s => jsonQuote s
  | vOid s => jsonQuote s
  | vArr l => "[" ++ String.intercalate "," (jsonItems l) ++ "]"
  | vObj fs => "\x7b" ++ String.intercalate "," (jsonFields fs) ++ "\x7d"

def jsonItems : List Value → List String
  | [] => []
  | v :: rest => jsonStringify v :: jsonItems rest

def jsonFields : List (String × Value) → List String
  | [] => []
  | kv :: rest => (jsonQuote kv.1 ++ ":" ++ jsonStringify kv.2) :: jsonFields rest

end

/-- The constructor's `trackingConfig`: collection name to tracked field
names, in property order, keys unique. -/
abbrev TrackingConfig := List (String × List String)

/-- `collectionName in this.trackingConfig` / `this.trackingConfig[collectionName]`. -/
def cfgLookup : TrackingConfig → String → Option (List String)
  | [], _ => none
  | (c, fs) :: rest, coll => if c == coll then some fs else cfgLookup rest coll

/-- `shouldTrack` (ChangeStreamManager.ts lines 132-137): empty config
tracks everything; an absent collection tracks nothing; an empty field
list tracks the whole collection; otherwise membership decides. -/
def shouldTrack (cfg : TrackingConfig) (collectionName fieldName : String) : Bool :=
  if cfg.isEmpty then true
  else
    match cfgLookup cfg collectionName with
    | none => false
    | some fields => fields.isEmpty || fields.contains fieldName

/-- Index-keyed entries, as `Object.entries` yields them for an array. -/
def enumFrom (i : Nat) : List Value → List (String × Value)
  | [] => []
  | v :: rest => (toString i, v) :: enumFrom (i + 1) rest

/-- `Object.entries(v)`: a plain object's own entries in property order;
an array's elements under stringified indices; a string's characters under
stringified indices; primitives and ObjectId instances (whose backing
buffer is not an enumerable own property) have none. -/
def entriesOf : Value → List (String × Value)
  | vObj fs => fs
  | vArr l => enumFrom 0 l
  | vStr s => enumFrom 0 (s.data.map (fun c => vStr (String.mk [c])))
  | _ => []

/-- JS property assignment `o[k] = v` on an object represented as an
ordered entry list: overwrite in place if the key exists, else append. -/
def setKey : List (String × Value) → String → Value → List (String × Value)
  | [], k, v => [(k, v)]
  | (k0, v0) :: rest, k, v =>
      if k0 == k then (k0, v) :: rest else (k0, v0) :: setKey rest k v

/-- `Object.fromEntries`. -/
def fromEntries (l : List (String × Value)) : List (String × Value) :=
  l.foldl (fun acc kv => setKey acc kv.1 kv.2) []

/-- `filterTrackedFields` (lines 213-218): `{}` for a falsy input, else the
entries whose keys `shouldTrack` accepts, values untouched. The argument is
an `Option` because the call sites pass possibly-undefined change-event
images; `none` models an absent (undefined) document. -/
def filterTrackedFields (cfg : TrackingConfig) (obj : Option Value) (collectionName : String) :
    Value :=
  match obj with
  | none => vObj []
  | some o =>
      if jsTruthy o = false then vObj []
      else vObj (fromEntries ((entriesOf o).filter (fun kv => shouldTrack cfg collectionName kv.1)))

end CSM

namespace CSM

open Value

mutual

/-- `sanitizeAndHashSensitiveData` (ChangeStreamManager.ts lines 145-157).
Falsy, non-object or valid-ObjectId inputs return unchanged; otherwise the
own enumerable entries (spread copy) are walked: a value under a key whose
lowercase form contains some sensitive matcher is replaced whole by the
SHA-256 hex digest of its `String(...)` coercion; other object-typed
values are recursed into; remaining scalars stay. Spreading an array
yields a plain object keyed by stringified indices, which is what the
source's `{ ...obj }` does to arrays. -/
def sanitizeAndHashSensitiveData (sf : List String) (v : Value) : Value :=
  if jsTruthy v = false ∨ typeofIsObject v = false ∨ isValidObjectId v = true then v
  else
    match v with
    | vObj fs => vObj (sanitizeFields sf fs)
    | vArr l => vObj (sanitizeIdx sf 0 l)
    | _ => v

def sanitizeFields (sf : List String) : List (String × Value) → List (String × Value)
  | [] => []
  | (k, v) :: rest =>
      (k, if isSensitiveKey sf k then vStr (SHA256.sha256hex (jsToString v))
          else if typeofIsObject v then sanitizeAndHashSensitiveData sf v
          else v) :: sanitizeFields sf rest

def sanitizeIdx (sf : List String) (i : Nat) : List Value → List (String × Value)
  | [] => []
  | v :: rest =>
      (toString i, if isSensitiveKey sf (toString i) then vStr (SHA256.sha256hex (jsToString v))
          else if typeofIsObject v then sanitizeAndHashSensitiveData sf v
          else v) :: sanitizeIdx sf (i + 1) rest

end

/-- The per-entry body of the loop in `sanitizeAndHashSensitiveData`,
factored out for the statements below. -/
def sanitizeVal (sf : List String) (k : String) (v : Value) : Value :=
  if isSensitiveKey sf k then vStr (SHA256.sha256hex (jsToString v))
  else if typeofIsObject v then sanitizeAndHashSensitiveData sf v
  else v

mutual

/-- `limitObjectDepth` (lines 377-394): falsy values, non-objects and any
value at `currentDepth >= maxObjectDepth` return unchanged; arrays map the
recursion over their elements; other objects are rebuilt key by key from
`Object.keys`. An ObjectId instance is object-typed but exposes no
enumerable own keys, so below the bound it is rebuilt as `{}`. -/
def limitObjectDepth (maxDepth : Nat) (v : Value) (currentDepth : Nat) : Value :=
  if jsTruthy v = false ∨ typeofIsObject v = false ∨ maxDepth ≤ currentDepth then v
  else
    match v with
    | vArr l => vArr (limitItems maxDepth l (currentDepth + 1))
    | vObj fs => vObj (limitFields maxDepth fs (currentDepth + 1))
    | vOid _ => vObj []
    | _ => v

def limitItems (maxDepth : Nat) : List Value → Nat → List Value
  | [], _ => []
  | v :: rest, d => limitObjectDepth maxDepth v d :: limitItems maxDepth rest d

def limitFields (maxDepth : Nat) : List (String × Value) → Nat → List (String × Value)
  | [], _ => []
  | (k, v) :: rest, d => (k, limitObjectDepth maxDepth v d) :: limitFields maxDepth rest d

end

/-- `createChecksum` (lines 225-229): SHA-256 hex digest of the JSON
serialization of the depth-limited data. -/
def createChecksum (maxDepth : Nat) (data : Value) : String :=
  SHA256.sha256hex (jsonStringify (limitObjectDepth maxDepth data 0))

/-- The destructured shape of a raw change event as `processChange` reads
it. `Option` fields model properties that may be absent (undefined) on the
event. -/
structure RawChangeEvent where
  nsColl : String
  operationType : String
  fullDocument : Option Value
  fullDocumentBeforeChange : Option Value
  documentKey : Value
  updateDescription : Option Value

/-- `x || null`: keep a truthy value, collapse absent or falsy to null. -/
def jsOrNull : Option Value → Value
  | some x => if jsTruthy x then x else vNull
  | none => vNull

/-- The `auditLog` object as `processChange` (lines 164-191) has built it
just before `createChecksum` runs: `none` when the event is for the audit
sink's own collection or its operation kind falls to the `default` branch.
Keys are listed in JS property-insertion order — the literal's five keys,
then the per-operation assignments. `now` stands for `new Date()`
serialized as its ISO string. -/
def buildAuditLog (cfg : TrackingConfig) (now : Value) (e : RawChangeEvent) :
    Option (List (String × Value)) :=
  if e.nsColl == "audit_logs" then none
  else
    let base : List (String × Value) :=
      [("timestamp", now), ("operationType", vStr e.operationType),
       ("collectionName", vStr e.nsColl), ("documentKey", e.documentKey),
       ("updateDescription", jsOrNull e.updateDescription)]
    if e.operationType == "insert" then
      some (base ++ [("newValue", filterTrackedFields cfg e.fullDocument e.nsColl)])
    else if e.operationType == "update" then
      some (base ++
        [("oldValue", filterTrackedFields cfg e.fullDocumentBeforeChange e.nsColl),
         ("newValue", filterTrackedFields cfg e.fullDocument e.nsColl)])
    else if e.operationType == "delete" then
      some (base ++ [("oldValue", filterTrackedFields cfg e.fullDocumentBeforeChange e.nsColl)])
    else none

/-- The audit-log schema's setters (lines 101-108): on document creation
mongoose passes the assigned `oldValue` and `newValue` through
`sanitizeAndHashSensitiveData`; every other path is stored as assigned. -/
def applySetters (sf : List String) (rec : List (String × Value)) : List (String × Value) :=
  rec.map (fun kv =>
    if kv.1 = "oldValue" ∨ kv.1 = "newValue" then (kv.1, sanitizeAndHashSensitiveData sf kv.2)
    else kv)

/-- JS property read `rec[k]` on an ordered entry list: the value under
the first (for well-formed objects, only) occurrence of the key. -/
def lookupKey (k : String) : List (String × Value) → Option Value
  | [] => none
  | (k0, v) :: rest => if k0 = k then some v else lookupKey k rest

/-- End-to-end `processChange`: `none` when the event is silently rejected,
otherwise the document handed to `auditLogModel.create` after the schema
setters ran — the built log, its `checksum` computed over the log as it
stood at line 193 (before the setters hashed anything), with the setters
then applied to `oldValue`/`newValue`. -/
def processChange (cfg : TrackingConfig) (sf : List String) (maxDepth : Nat) (now : Value)
    (e : RawChangeEvent) : Option (List (String × Value)) :=
  match buildAuditLog cfg now e with
  | none => none
  | some log =>
      some (applySetters sf (log ++ [("checksum", vStr (createChecksum maxDepth (vObj log)))]))

/-- Outcome of `connectDB`. -/
inductive ConnectOutcome where
  | connected (finalCounter : Nat)
  | fatalError (message : String)

/-- `connectDB` (lines 63-84) driven by a script of attempt outcomes
- `true` = `mongoose.connect` resolves, `false` = it rejects. The state
threaded through is `this.reconnectAttempts`. A successful attempt resets
the counter to 0; a failed one increments it, throws the fatal error once
the incremented counter reaches `maxReconnectAttempts`, and otherwise
sleeps `reconnectDelay` ms and recurses. The second result component
accumulates the total delay slept; `none` means the script supplied fewer
outcomes than the run consumed. -/
def connectDB (maxAttempts reconnectDelay : Nat) :
    Nat → List Bool → Option (ConnectOutcome × Nat)
  | _, [] => none
  | counter, ok :: rest =>
      if ok then some (.connected 0, 0)
      else
        let c := counter + 1
        if maxAttempts ≤ c then
          some (.fatalError ("Max reconnection attempts (" ++ toString maxAttempts ++ ") reached"),
            0)
        else (connectDB maxAttempts reconnectDelay c rest).map
          (fun r => (r.1, reconnectDelay + r.2))

/-- `initialize` (lines 52-57) up to its subscription step: a fatal
`connectDB` error propagates to the caller and the manager never reaches
`startChangeStream`; a successful connection proceeds. -/
def initializeConnects (maxAttempts reconnectDelay : Nat) (script : List Bool) :
    Option (Except String Unit) :=
  (connectDB maxAttempts reconnectDelay 0 script).map (fun r =>
    match r.1 with
    | .connected _ => .ok ()
    | .fatalError m => .error m)

end CSM
namespace CSM

open Value

/-- Concrete event aimed at the audit sink's own collection. -/
def evC4self : RawChangeEvent :=
  { nsColl := "audit_logs", operationType := "insert", fullDocument := some (vObj []),
    fullDocumentBeforeChange := none, documentKey := vObj [("_id", vStr "1")],
    updateDescription := none }

/-- Concrete event with an operation kind outside insert/update/delete. -/
def evC4drop : RawChangeEvent :=
  { nsColl := "users", operationType := "drop", fullDocument := none,
    fullDocumentBeforeChange := none, documentKey := vObj [("_id", vStr "1")],
    updateDescription := none }

/-- Concrete insert event used for C7. -/
def evC7 : RawChangeEvent :=
  { nsColl := "u", operationType := "insert", fullDocument := some (vObj [("a", vNum 1)]),
    fullDocumentBeforeChange := none, documentKey := vObj [("_id", vStr "1")],
    updateDescription := none }

/-- Concrete insert event used for C1: the tracked document retains its
sensitive `password` field, so redaction hashing changes the serialized
content. -/
def evC1 : RawChangeEvent :=
  { nsColl := "u", operationType := "insert",
    fullDocument := some (vObj [("password", vStr "p1")]),
    fullDocumentBeforeChange := none, documentKey := vObj [("_id", vStr "1")],
    updateDescription := none }

/-- Candidate record for C2, and the same mapping with its two keys
inserted in the opposite order. -/
def c2r1 : List (String × Value) := [("a", vNum 1), ("b", vNum 2)]

def c2r2 : List (String × Value) := [("b", vNum 2), ("a", vNum 1)]

mutual

/-- Nesting depth of a value: scalars are 0, arrays and objects one more
than their deepest member. A document identifier counts as a scalar here,
which is why the content-reproduction statement for `limitObjectDepth`
excludes identifiers. -/
def vdepth : Value → Nat
  | vArr l => 1 + vdepthItems l
  | vObj fs => 1 + vdepthFields fs
  | _ => 0

def vdepthItems : List Value → Nat
  | [] => 0
  | v :: rest => max (vdepth v) (vdepthItems rest)

def vdepthFields : List (String × Value) → Nat
  | [] => 0
  | kv :: rest => max (vdepth kv.2) (vdepthFields rest)

end

mutual

/-- No document identifier occurs anywhere inside the value. -/
def oidFree : Value → Bool
  | vOid _ => false
  | vArr l => oidFreeItems l
  | vObj fs => oidFreeFields fs
  | _ => true

def oidFreeItems : List Value → Bool
  | [] => true
  | v :: rest => oidFree v && oidFreeItems rest

def oidFreeFields : List (String × Value) → Bool
  | [] => true
  | kv :: rest => oidFree kv.2 && oidFreeFields rest

end

end CSM

namespace SHA256

lemma processChunk_length (hs c : List Nat) : (processChunk hs c).length = 8 := rfl

lemma foldl_processChunk_length : ∀ (chs : List (List Nat)) (hs : List Nat),
    (chs.foldl processChunk hs).length = 8 ∨ chs = [] ∧ hs.length = (chs.foldl processChunk hs).length := by
  intro chs
  induction chs with
  | nil => intro hs; exact Or.inr ⟨rfl, rfl⟩
  | cons c rest ih =>
      intro hs
      rcases ih (processChunk hs c) with h | ⟨hrest, hlen⟩
      · exact Or.inl h
      · subst hrest
        exact Or.inl (by simpa [← hlen] using processChunk_length hs c)

lemma sha256words_length (m : List Nat) : (sha256words m).length = 8 := by
  rcases foldl_processChunk_length (chunks (padBytes m)) H0 with h | ⟨_, hlen⟩
  · exact h
  · exact hlen.symm

lemma wordHex_length (n : Nat) : (wordHex n).length = 8 := rfl

lemma concat_map_wordHex_length : ∀ ws : List Nat,
    (concatAll (ws.map wordHex)).length = 8 * ws.length := by
  intro ws
  induction ws with
  | nil => rfl
  | cons w rest ih =>
      simp only [List.map_cons, concatAll, String.length_append, wordHex_length, ih,
        List.length_cons]
      ring

lemma sha256hex_length (s : String) : (sha256hex s).length = 64 := by
  unfold sha256hex
  rw [concat_map_wordHex_length, sha256words_length]

end SHA256

namespace CSM

open Value

set_option maxRecDepth 400000

lemma setKey_of_not_mem (acc : List (String × Value)) (k : String) (v : Value)
    (h : k ∉ acc.map Prod.fst) : setKey acc k v = acc ++ [(k, v)] := by
  induction acc with
  | nil => rfl
  | cons kv rest ih =>
      obtain ⟨k0, v0⟩ := kv
      simp only [List.map_cons, List.mem_cons, not_or] at h
      obtain ⟨h1, h2⟩ := h
      have hb : (k0 == k) = false := beq_eq_false_iff_ne.mpr (fun hk => h1 hk.symm)
      simp [setKey, hb, ih h2]

lemma foldl_setKey_append (l : List (String × Value)) :
    ∀ acc, ((acc ++ l).map Prod.fst).Nodup →
      l.foldl (fun a kv => setKey a kv.1 kv.2) acc = acc ++ l := by
  induction l with
  | nil => intro acc _; simp
  | cons kv rest ih =>
      intro acc h
      have hk : kv.1 ∉ acc.map Prod.fst := by
        simp only [List.map_append, List.map_cons, List.nodup_append] at h
        intro hmem
        exact h.2.2 hmem (by simp)
      rw [List.foldl_cons, setKey_of_not_mem _ _ _ hk]
      have h2 : (((acc ++ [kv]) ++ rest).map Prod.fst).Nodup := by
        simpa [List.append_assoc] using h
      simpa [List.append_assoc] using ih (acc ++ [kv]) h2

lemma fromEntries_eq_self (l : List (String × Value)) (h : (l.map Prod.fst).Nodup) :
    fromEntries l = l := by
  simpa using foldl_setKey_append l [] (by simpa using h)

/-- C5: `shouldTrack(c, f)` is true exactly when the tracking config is
empty, or `c` is a key of the config and its field list is empty or
contains `f`. -/
theorem c5_shouldTrack_spec : ∀ (cfg : TrackingConfig) (c f : String),
    shouldTrack cfg c f = true ↔
      cfg = [] ∨ ∃ fs, cfgLookup cfg c = some fs ∧ (fs = [] ∨ f ∈ fs) := by
  intro cfg c f
  unfold shouldTrack
  cases hE : cfg.isEmpty with
  | true =>
      have h0 : cfg = [] := List.isEmpty_iff.mp hE
      simp [h0]
  | false =>
      have hne : cfg ≠ [] := by
        intro h0
        rw [h0] at hE
        simp at hE
      cases hL : cfgLookup cfg c with
      | none => simp [hL, hne]
      | some fields => simp [hL, hne, List.isEmpty_iff, List.elem_iff]

/-- C6: `filterTrackedFields` returns an empty object (never null) for an
absent or null document; on a document it keeps exactly the top-level
entries whose keys `shouldTrack` accepts, each value whole and unchanged;
and on the spec scenario `\x7busers: ['name','email']\x7d` it keeps
exactly `name` and `email`. -/
theorem c6_filterTrackedFields_spec :
    (forall (cfg : TrackingConfig) (c : String),
      filterTrackedFields cfg none c = vObj [] ∧
      filterTrackedFields cfg (some vNull) c = vObj []) ∧
    (forall (cfg : TrackingConfig) (c : String) (fs : List (String × Value)),
      (fs.map Prod.fst).Nodup →
      filterTrackedFields cfg (some (vObj fs)) c
        = vObj (fs.filter (fun kv => shouldTrack cfg c kv.1))) ∧
    filterTrackedFields [("users", ["name", "email"])]
        (some (vObj [("name", vStr "Ann"), ("email", vStr "a@x.com"),
          ("password", vStr "p1"), ("age", vNum 30)])) "users"
      = vObj [("name", vStr "Ann"), ("email", vStr "a@x.com")] := by
  refine ⟨fun cfg c => ⟨rfl, rfl⟩, fun cfg c fs hnd => ?_, by rfl⟩
  have hsub : ((fs.filter (fun kv => shouldTrack cfg c kv.1)).map Prod.fst).Nodup :=
    (hnd.sublist (List.Sublist.map Prod.fst (List.filter_sublist fs)))
  simp [filterTrackedFields, jsTruthy, entriesOf, fromEntries_eq_self _ hsub]

lemma applySetters_keys (sf : List String) (l : List (String × Value)) :
    (applySetters sf l).map Prod.fst = l.map Prod.fst := by
  induction l with
  | nil => rfl
  | cons kv rest ih =>
      simp only [applySetters, List.map_cons] at ih ⊢
      by_cases hp : kv.1 = "oldValue" ∨ kv.1 = "newValue"
      · rw [if_pos hp]
        simp [ih]
      · rw [if_neg hp]
        simp [ih]

lemma lookupKey_applySetters (sf : List String) (l : List (String × Value)) (k : String) :
    lookupKey k (applySetters sf l) =
      if k = "oldValue" ∨ k = "newValue" then
        (lookupKey k l).map (sanitizeAndHashSensitiveData sf)
      else lookupKey k l := by
  induction l with
  | nil => split <;> rfl
  | cons kv rest ih =>
      simp only [applySetters, List.map_cons] at ih ⊢
      by_cases hp : kv.1 = "oldValue" ∨ kv.1 = "newValue"
      · rw [if_pos hp]
        by_cases hk : kv.1 = k
        · subst hk
          simp [lookupKey, hp]
        · simp [lookupKey, hk, ih]
      · rw [if_neg hp]
        by_cases hk : kv.1 = k
        · subst hk
          simp [lookupKey, hp]
        · simp [lookupKey, hk, ih]

lemma lookupKey_append_right (l1 l2 : List (String × Value)) (k : String)
    (h : k ∉ l1.map Prod.fst) : lookupKey k (l1 ++ l2) = lookupKey k l2 := by
  induction l1 with
  | nil => rfl
  | cons kv rest ih =>
      simp only [List.map_cons, List.mem_cons, not_or] at h
      have hk : kv.1 ≠ k := fun hq => h.1 hq.symm
      simp [lookupKey, hk, ih h.2]

lemma lookupKey_append_left (l1 l2 : List (String × Value)) (k : String) (v : Value)
    (h : lookupKey k l1 = some v) : lookupKey k (l1 ++ l2) = some v := by
  induction l1 with
  | nil => simp [lookupKey] at h
  | cons kv rest ih =>
      by_cases hk : kv.1 = k
      · simp only [lookupKey, if_pos hk] at h
        simp [lookupKey, hk, h]
      · simp only [lookupKey, if_neg hk] at h
        simp [lookupKey, hk, ih h]

lemma buildAuditLog_cases (cfg : TrackingConfig) (now : Value) (e : RawChangeEvent)
    (log : List (String × Value)) (h : buildAuditLog cfg now e = some log) :
    e.nsColl ≠ "audit_logs" ∧
    ((e.operationType = "insert" ∧
        log = [("timestamp", now), ("operationType", vStr e.operationType),
          ("collectionName", vStr e.nsColl), ("documentKey", e.documentKey),
          ("updateDescription", jsOrNull e.updateDescription),
          ("newValue", filterTrackedFields cfg e.fullDocument e.nsColl)]) ∨
      (e.operationType = "update" ∧
        log = [("timestamp", now), ("operationType", vStr e.operationType),
          ("collectionName", vStr e.nsColl), ("documentKey", e.documentKey),
          ("updateDescription", jsOrNull e.updateDescription),
          ("oldValue", filterTrackedFields cfg e.fullDocumentBeforeChange e.nsColl),
          ("newValue", filterTrackedFields cfg e.fullDocument e.nsColl)]) ∨
      (e.operationType = "delete" ∧
        log = [("timestamp", now), ("operationType", vStr e.operationType),
          ("collectionName", vStr e.nsColl), ("documentKey", e.documentKey),
          ("updateDescription", jsOrNull e.updateDescription),
          ("oldValue", filterTrackedFields cfg e.fullDocumentBeforeChange e.nsColl)])) := by
  unfold buildAuditLog at h
  cases hc : (e.nsColl == "audit_logs") <;> rw [hc] at h
  · refine ⟨beq_eq_false_iff_ne.mp hc, ?_⟩
    cases h1 : (e.operationType == "insert") <;> rw [h1] at h
    · cases h2 : (e.operationType == "update") <;> rw [h2] at h
      · cases h3 : (e.operationType == "delete") <;> rw [h3] at h
        · simp at h
        · exact Or.inr (Or.inr ⟨eq_of_beq h3, ((Option.some.injEq _ _).mp h).symm⟩)
      · exact Or.inr (Or.inl ⟨eq_of_beq h2, ((Option.some.injEq _ _).mp h).symm⟩)
    · exact Or.inl ⟨eq_of_beq h1, ((Option.some.injEq _ _).mp h).symm⟩
  · simp at h

lemma buildAuditLog_keys (cfg : TrackingConfig) (now : Value) (e : RawChangeEvent)
    (log : List (String × Value)) (h : buildAuditLog cfg now e = some log) :
    log.map Prod.fst =
      ["timestamp", "operationType", "collectionName", "documentKey", "updateDescription"] ++
        (if e.operationType = "insert" then ["newValue"]
         else if e.operationType = "update" then ["oldValue", "newValue"]
         else ["oldValue"]) := by
  rcases (buildAuditLog_cases cfg now e log h).2 with ⟨hop, rfl⟩ | ⟨hop, rfl⟩ | ⟨hop, rfl⟩
  · simp [hop]
  · have hne : e.operationType ≠ "insert" := by
      rw [hop]
      decide
    simp [hop, hne]
  · have hne1 : e.operationType ≠ "insert" := by
      rw [hop]
      decide
    have hne2 : e.operationType ≠ "update" := by
      rw [hop]
      decide
    simp [hne1, hne2]

lemma buildAuditLog_lookup_ud (cfg : TrackingConfig) (now : Value) (e : RawChangeEvent)
    (log : List (String × Value)) (h : buildAuditLog cfg now e = some log) :
    lookupKey "updateDescription" log = some (jsOrNull e.updateDescription) := by
  rcases (buildAuditLog_cases cfg now e log h).2 with ⟨hop, rfl⟩ | ⟨hop, rfl⟩ | ⟨hop, rfl⟩ <;>
    simp [lookupKey]

/-- C4: an event for the audit sink's own collection `audit_logs`, or one
whose operation kind is outside insert/update/delete, is silently
rejected: `processChange` persists nothing. The embedding is a total
function returning `Option`, so the rejection path cannot raise. -/
theorem c4_silent_rejection :
    ∀ (cfg : TrackingConfig) (sf : List String) (maxDepth : Nat) (now : Value)
      (e : RawChangeEvent),
      (e.nsColl = "audit_logs" ∨
        e.operationType ∉ (["insert", "update", "delete"] : List String)) →
      processChange cfg sf maxDepth now e = none := by
  intro cfg sf maxD now e h
  have hb : buildAuditLog cfg now e = none := by
    unfold buildAuditLog
    rcases h with h | h
    · simp [h]
    · simp only [List.mem_cons, List.mem_singleton, not_or] at h
      obtain ⟨h1, h2, h3, -⟩ := h
      by_cases hc : (e.nsColl == "audit_logs") = true
      · simp [hc]
      · simp [hc, beq_eq_false_iff_ne.mpr h1, beq_eq_false_iff_ne.mpr h2,
          beq_eq_false_iff_ne.mpr h3]
  simp [processChange, hb]

/-- C4 witness: both rejection paths at concrete events. -/
theorem c4_witness :
    processChange [] [] 10 (vStr "t") evC4self = none ∧
    processChange [] [] 10 (vStr "t") evC4drop = none :=
  ⟨c4_silent_rejection [] [] 10 (vStr "t") evC4self (Or.inl rfl),
   c4_silent_rejection [] [] 10 (vStr "t") evC4drop (Or.inr (by decide))⟩

/-- C7 counterexample: the record persisted for an insert event (which
carries no update description) still contains the key
`updateDescription`, bound to null — the claim requires the field to be
absent from insert records. -/
theorem c7_counterexample :
    "updateDescription" ∈ ((processChange [] [] 10 (vStr "t") evC7).getD []).map Prod.fst ∧
    lookupKey "updateDescription" ((processChange [] [] 10 (vStr "t") evC7).getD [])
      = some vNull :=
  ⟨by decide, rfl⟩

/-- C7 amended: insert records carry `newValue` (no `oldValue`), delete
records `oldValue` (no `newValue`), update records both; but
`updateDescription` is always present — bound to the event's description
for updates and to null (not absent) for inserts and deletes, because the
record literal assigns `updateDescription || null` for every kind. -/
theorem c7_amended_record_shape :
    ∀ (cfg : TrackingConfig) (sf : List String) (maxDepth : Nat) (now : Value)
      (e : RawChangeEvent) (rec : List (String × Value)),
      processChange cfg sf maxDepth now e = some rec →
      rec.map Prod.fst =
        ["timestamp", "operationType", "collectionName", "documentKey", "updateDescription"] ++
          (if e.operationType = "insert" then ["newValue"]
           else if e.operationType = "update" then ["oldValue", "newValue"]
           else ["oldValue"]) ++ ["checksum"] ∧
      lookupKey "updateDescription" rec = some (jsOrNull e.updateDescription) := by
  intro cfg sf maxD now e rec h
  unfold processChange at h
  cases hb : buildAuditLog cfg now e with
  | none =>
      rw [hb] at h
      simp at h
  | some log =>
      rw [hb] at h
      simp only [Option.some.injEq] at h
      subst h
      constructor
      · rw [applySetters_keys, List.map_append, buildAuditLog_keys cfg now e log hb]
        simp
      · rw [lookupKey_applySetters, if_neg (by decide),
          lookupKey_append_left _ _ _ _ (buildAuditLog_lookup_ud cfg now e log hb)]

/-- C7 witness: the amended record shape at the concrete insert event. -/
theorem c7_witness :
    ((processChange [] [] 10 (vStr "t") evC7).getD []).map Prod.fst =
      ["timestamp", "operationType", "collectionName", "documentKey", "updateDescription",
       "newValue", "checksum"] ∧
    lookupKey "updateDescription" ((processChange [] [] 10 (vStr "t") evC7).getD [])
      = some vNull := by
  have h := c7_amended_record_shape [] [] 10 (vStr "t") evC7
    ((processChange [] [] 10 (vStr "t") evC7).getD []) (by rfl)
  refine ⟨?_, h.2⟩
  rw [h.1]
  rfl

lemma lookupKey_append_single (l : List (String × Value)) (k k2 : String) (v : Value)
    (h : k ≠ k2) : lookupKey k (l ++ [(k2, v)]) = lookupKey k l := by
  induction l with
  | nil => simp [lookupKey, (Ne.symm h : k2 ≠ k)]
  | cons kv rest ih =>
      by_cases hk : kv.1 = k <;> simp [lookupKey, hk, ih]

lemma checksum_not_mem_log (cfg : TrackingConfig) (now : Value) (e : RawChangeEvent)
    (log : List (String × Value)) (h : buildAuditLog cfg now e = some log) :
    "checksum" ∉ log.map Prod.fst := by
  rw [buildAuditLog_keys cfg now e log h]
  split
  · decide
  · split
    · decide
    · decide

/-- C1 counterexample: at `evC1` the digest stored in the persisted
record's `checksum` field is not a digest over the record's own (filtered
AND sensitive-hashed) values: recomputing the checksum over the persisted
record minus its checksum entry gives a different digest, because
`createChecksum` ran before the schema setters hashed `password`. -/
theorem c1_counterexample :
    lookupKey "checksum" ((processChange [] ["password"] 10 (vStr "t") evC1).getD [])
      ≠ some (vStr (createChecksum 10
          (vObj ((processChange [] ["password"] 10 (vStr "t") evC1).getD []).dropLast))) := by
  have hL : lookupKey "checksum" ((processChange [] ["password"] 10 (vStr "t") evC1).getD [])
      = some (vStr "f8656f44252ba471922d170de4295d0d0697ae9fd31a154e591cba045b00f496") := rfl
  have hR : createChecksum 10
        (vObj ((processChange [] ["password"] 10 (vStr "t") evC1).getD []).dropLast)
      = "861d8720e0e5700b005ef5dc9cf2e5ee74d9f54f99ec940994f4a9db6d54a746" := rfl
  intro h
  rw [hL, hR] at h
  injection h with h1
  injection h1 with h2
  exact absurd h2 (by decide)

/-- C1 amended: the stored checksum is a digest over the filtered but
pre-hash record content — `createChecksum` runs at line 193, before the
audit-log schema setters apply sensitive-value hashing to
`oldValue`/`newValue` during persistence; the values actually stored are
the sanitized images of the values the digest covers. -/
theorem c1_amended_checksum_prehash :
    ∀ (cfg : TrackingConfig) (sf : List String) (maxDepth : Nat) (now : Value)
      (e : RawChangeEvent) (log : List (String × Value)),
      buildAuditLog cfg now e = some log →
      ∃ rec, processChange cfg sf maxDepth now e = some rec ∧
        lookupKey "checksum" rec = some (vStr (createChecksum maxDepth (vObj log))) ∧
        lookupKey "newValue" rec
          = (lookupKey "newValue" log).map (sanitizeAndHashSensitiveData sf) ∧
        lookupKey "oldValue" rec
          = (lookupKey "oldValue" log).map (sanitizeAndHashSensitiveData sf) := by
  intro cfg sf maxD now e log h
  refine ⟨applySetters sf
      (log ++ [("checksum", vStr (createChecksum maxD (vObj log)))]), ?_, ?_, ?_, ?_⟩
  · simp [processChange, h]
  · rw [lookupKey_applySetters, if_neg (by decide),
      lookupKey_append_right _ _ _ (checksum_not_mem_log cfg now e log h)]
    simp [lookupKey]
  · rw [lookupKey_applySetters, if_pos (Or.inr rfl),
      lookupKey_append_single _ _ _ _ (by decide)]
  · rw [lookupKey_applySetters, if_pos (Or.inl rfl),
      lookupKey_append_single _ _ _ _ (by decide)]

/-- C1 witness: the amended relationship instantiated at `evC1`. -/
theorem c1_witness :
    ∃ rec, processChange [] ["password"] 10 (vStr "t") evC1 = some rec ∧
      lookupKey "checksum" rec
        = some (vStr (createChecksum 10 (vObj ((buildAuditLog [] (vStr "t") evC1).getD [])))) ∧
      lookupKey "newValue" rec
        = (lookupKey "newValue" ((buildAuditLog [] (vStr "t") evC1).getD [])).map
            (sanitizeAndHashSensitiveData ["password"]) ∧
      lookupKey "oldValue" rec
        = (lookupKey "oldValue" ((buildAuditLog [] (vStr "t") evC1).getD [])).map
            (sanitizeAndHashSensitiveData ["password"]) :=
  c1_amended_checksum_prehash [] ["password"] 10 (vStr "t") evC1
    ((buildAuditLog [] (vStr "t") evC1).getD []) (by rfl)

/-- C2 counterexample: `c2r1` and `c2r2` carry the same key-to-value
mapping (identical lookups, permuted key lists) yet their checksums
differ, because `createChecksum` serializes with `JSON.stringify`, which
follows property insertion order. -/
theorem c2_counterexample :
    lookupKey "a" c2r1 = lookupKey "a" c2r2 ∧
    lookupKey "b" c2r1 = lookupKey "b" c2r2 ∧
    (c2r1.map Prod.fst).Perm (c2r2.map Prod.fst) ∧
    createChecksum 10 (vObj c2r1) ≠ createChecksum 10 (vObj c2r2) :=
  ⟨rfl, rfl, by decide, by decide⟩

/-- C2 amended: the checksum is deterministic as a function of the
serialized depth-limited representation — any two candidates whose
depth-limited JSON serializations coincide get equal digests (in
particular the digest of a fixed representation is stable) — but it is
representation-sensitive: permuting key insertion order can change it
(see the counterexample), while differing filtered values give differing
digests at the given concrete inputs. -/
theorem c2_amended_checksum_determinism :
    (∀ (maxDepth : Nat) (r1 r2 : Value),
      jsonStringify (limitObjectDepth maxDepth r1 0)
          = jsonStringify (limitObjectDepth maxDepth r2 0) →
      createChecksum maxDepth r1 = createChecksum maxDepth r2) ∧
    createChecksum 10 (vObj [("a", vStr "x")]) ≠ createChecksum 10 (vObj [("a", vStr "y")]) :=
  ⟨fun maxD r1 r2 h => by unfold createChecksum; rw [h], by decide⟩

/-- C3 counterexample: with matcher `password`, the composite value under
the sensitive key `password` is not recursed into element-wise — the whole
map is replaced by the digest of its stringification `[object Object]`,
a string, not a map. -/
theorem c3_counterexample :
    sanitizeAndHashSensitiveData ["password"] (vObj [("password", vObj [("a", vNum 1)])])
      = vObj [("password",
          vStr "b28c94b2195c8ed259f0b415aaee3f39b0b2920a4537611499fa044956917a21")] ∧
    Value.vStr "b28c94b2195c8ed259f0b415aaee3f39b0b2920a4537611499fa044956917a21"
      ≠ vObj [("a", vNum 1)] :=
  ⟨rfl, fun h => Value.noConfusion h⟩

lemma sanitizeFields_eq_map (sf : List String) (fs : List (String × Value)) :
    sanitizeFields sf fs = fs.map (fun kv => (kv.1, sanitizeVal sf kv.1 kv.2)) := by
  induction fs with
  | nil => rfl
  | cons kv rest ih =>
      obtain ⟨k, v⟩ := kv
      simp [sanitizeFields, sanitizeVal, ih]

/-- C3 amended: the sensitive-key check takes priority over recursion —
every value (composite or scalar) under a key whose lowercase form
contains a matcher is replaced whole by the fixed-length digest of its
stringification; recursion into object-typed values happens only under
non-sensitive keys, scalars under non-sensitive keys pass through, a
well-formed document identifier reaching the function is returned
unchanged, and the digest always has 64 hex characters (determinism is
inherent: the transformation is a pure function of its input). -/
theorem c3_amended_sanitize_spec :
    (∀ (sf : List String) (fs : List (String × Value)),
      sanitizeAndHashSensitiveData sf (vObj fs)
        = vObj (fs.map (fun kv => (kv.1, sanitizeVal sf kv.1 kv.2)))) ∧
    (∀ (sf : List String) (k : String) (v : Value), isSensitiveKey sf k = true →
      sanitizeVal sf k v = vStr (SHA256.sha256hex (jsToString v))) ∧
    (∀ (sf : List String) (k : String) (v : Value), isSensitiveKey sf k = false →
      typeofIsObject v = false → sanitizeVal sf k v = v) ∧
    (∀ (sf : List String) (s : String), sanitizeAndHashSensitiveData sf (vOid s) = vOid s) ∧
    (∀ s : String, (SHA256.sha256hex s).length = 64) := by
  refine ⟨fun sf fs => ?_, fun sf k v h => ?_, fun sf k v h1 h2 => ?_, fun sf s => rfl, ?_⟩
  · show vObj (sanitizeFields sf fs) = _
    rw [sanitizeFields_eq_map]
  · simp [sanitizeVal, h]
  · simp [sanitizeVal, h1, h2]
  · exact SHA256.sha256hex_length

lemma sanitizeIdx_eq_map (sf : List String) : ∀ (l : List Value) (i : Nat),
    sanitizeIdx sf i l = (enumFrom i l).map (fun kv => (kv.1, sanitizeVal sf kv.1 kv.2)) := by
  intro l
  induction l with
  | nil => intro i; rfl
  | cons v rest ih =>
      intro i
      simp [sanitizeIdx, enumFrom, sanitizeVal, ih]

lemma enumFrom_keys : ∀ (l : List Value) (i : Nat),
    (enumFrom i l).map Prod.fst = (List.range l.length).map (fun j => toString (i + j)) := by
  intro l
  induction l with
  | nil => intro i; rfl
  | cons v rest ih =>
      intro i
      simp only [enumFrom, List.map_cons, List.length_cons, List.range_succ_eq_map, ih,
        List.map_map]
      refine List.cons_eq_cons.mpr ⟨by simp, ?_⟩
      apply List.map_congr_left
      intro j _
      simp only [Function.comp_apply]
      congr 1
      omega

/-- C10: sanitizing any array that reaches the redaction walk (the
top-level input, or an array under a non-sensitive key) never yields an
array: the spread copy turns it into a plain map whose keys are the
stringified indices 0, 1, …, each element processed under its index key. -/
theorem c10_sanitize_array_shape :
    ∀ (sf : List String) (l : List Value),
      sanitizeAndHashSensitiveData sf (vArr l)
        = vObj ((enumFrom 0 l).map (fun kv => (kv.1, sanitizeVal sf kv.1 kv.2))) ∧
      (enumFrom 0 l).map Prod.fst = (List.range l.length).map (fun j => toString j) := by
  intro sf l
  constructor
  · show vObj (sanitizeIdx sf 0 l) = _
    rw [sanitizeIdx_eq_map]
  · rw [enumFrom_keys]
    simp

lemma vdepthItems_le (l : List Value) (e : Value) (h : e ∈ l) : vdepth e ≤ vdepthItems l := by
  induction l with
  | nil => cases h
  | cons v rest ih =>
      rcases List.mem_cons.mp h with rfl | h2
      · simp [vdepthItems]
      · exact le_trans (ih h2) (by simp [vdepthItems])

lemma vdepthFields_le (fs : List (String × Value)) (kv : String × Value) (h : kv ∈ fs) :
    vdepth kv.2 ≤ vdepthFields fs := by
  induction fs with
  | nil => cases h
  | cons kv0 rest ih =>
      rcases List.mem_cons.mp h with rfl | h2
      · simp [vdepthFields]
      · exact le_trans (ih h2) (by simp [vdepthFields])

lemma oidFreeItems_mem (l : List Value) (h : oidFreeItems l = true) (e : Value) (he : e ∈ l) :
    oidFree e = true := by
  induction l with
  | nil => cases he
  | cons v rest ih =>
      simp only [oidFreeItems, Bool.and_eq_true] at h
      rcases List.mem_cons.mp he with rfl | h2
      · exact h.1
      · exact ih h.2 h2

lemma oidFreeFields_mem (fs : List (String × Value)) (h : oidFreeFields fs = true)
    (kv : String × Value) (he : kv ∈ fs) : oidFree kv.2 = true := by
  induction fs with
  | nil => cases he
  | cons kv0 rest ih =>
      simp only [oidFreeFields, Bool.and_eq_true] at h
      rcases List.mem_cons.mp he with rfl | h2
      · exact h.1
      · exact ih h.2 h2

lemma limitItems_id (maxD : Nat) (l : List Value) (d : Nat)
    (h : ∀ e ∈ l, limitObjectDepth maxD e d = e) : limitItems maxD l d = l := by
  induction l with
  | nil => rfl
  | cons v rest ih =>
      simp [limitItems, h v (by simp), ih (fun e he => h e (by simp [he]))]

lemma limitFields_id (maxD : Nat) (fs : List (String × Value)) (d : Nat)
    (h : ∀ kv ∈ fs, limitObjectDepth maxD kv.2 d = kv.2) : limitFields maxD fs d = fs := by
  induction fs with
  | nil => rfl
  | cons kv rest ih =>
      obtain ⟨k, v⟩ := kv
      simp [limitFields, h (k, v) (by simp), ih (fun kv2 he => h kv2 (by simp [he]))]

lemma limit_id_of_le (maxD : Nat) (v : Value) (d : Nat) (h : maxD ≤ d) :
    limitObjectDepth maxD v d = v := by
  unfold limitObjectDepth
  rw [if_pos (Or.inr (Or.inr h))]

lemma limit_id_of_fits (maxD : Nat) :
    ∀ (n : Nat) (v : Value) (d : Nat), sizeOf v ≤ n → oidFree v = true →
      d + vdepth v ≤ maxD → limitObjectDepth maxD v d = v := by
  intro n
  induction n with
  | zero =>
      intro v d hs
      exfalso
      cases v <;> simp at hs
  | succ n ih =>
      intro v d hs hof hd
      cases v with
      | vNull => simp [limitObjectDepth, jsTruthy]
      | vBool b => simp [limitObjectDepth, typeofIsObject]
      | vNum m => simp [limitObjectDepth, typeofIsObject]
      | vStr s => simp [limitObjectDepth, typeofIsObject]
      | vOid s => simp [oidFree] at hof
      | vArr l =>
          have hguard : ¬ (jsTruthy (vArr l) = false ∨ typeofIsObject (vArr l) = false ∨
              maxD ≤ d) := by
            push_neg
            refine ⟨by simp [jsTruthy], by simp [typeofIsObject], ?_⟩
            simp only [vdepth] at hd
            omega
          unfold limitObjectDepth
          rw [if_neg hguard]
          show vArr (limitItems maxD l (d + 1)) = vArr l
          congr 1
          apply limitItems_id
          intro e he
          have hse : sizeOf e ≤ n := by
            have h1 : sizeOf e < sizeOf l := List.sizeOf_lt_of_mem he
            have h2 : sizeOf (vArr l) = 1 + sizeOf l := by simp
            omega
          refine ih e (d + 1) hse (oidFreeItems_mem l (by simpa [oidFree] using hof) e he) ?_
          have hde := vdepthItems_le l e he
          simp only [vdepth] at hd
          omega
      | vObj fs =>
          have hguard : ¬ (jsTruthy (vObj fs) = false ∨ typeofIsObject (vObj fs) = false ∨
              maxD ≤ d) := by
            push_neg
            refine ⟨by simp [jsTruthy], by simp [typeofIsObject], ?_⟩
            simp only [vdepth] at hd
            omega
          unfold limitObjectDepth
          rw [if_neg hguard]
          show vObj (limitFields maxD fs (d + 1)) = vObj fs
          congr 1
          apply limitFields_id
          intro kv he
          have hse : sizeOf kv.2 ≤ n := by
            have h1 : sizeOf kv < sizeOf fs := List.sizeOf_lt_of_mem he
            have h2 : sizeOf (vObj fs) = 1 + sizeOf fs := by simp
            obtain ⟨k, v2⟩ := kv
            simp only [Prod.mk.sizeOf_spec] at h1 ⊢
            omega
          refine ih kv.2 (d + 1) hse (oidFreeFields_mem fs (by simpa [oidFree] using hof) kv he)
            ?_
          have hde := vdepthFields_le fs kv he
          simp only [vdepth] at hd
          omega

/-- C9 counterexample: below the bound, a document identifier is rebuilt
from its (empty) enumerable keys, so the structure is not reproduced with
equal content — `\x7b_id: ObjectId\x7d` becomes `\x7b_id: \x7b\x7d\x7d`. -/
theorem c9_counterexample :
    limitObjectDepth 10 (vObj [("_id", vOid "507f1f77bcf86cd799439011")]) 0
      = vObj [("_id", vObj [])] ∧
    Value.vObj ([] : List (String × Value)) ≠ vOid "507f1f77bcf86cd799439011" :=
  ⟨rfl, fun h => Value.noConfusion h⟩

/-- C9 (amended): `limitObjectDepth` is a total function (the embedding
terminates on every value, no error path exists); any value at depth at
or past the bound is returned unchanged (truncation, no recursion past
the bound); a document identifier strictly below the bound is rebuilt as
an empty object (the exception the counterexample exhibits); and every
identifier-free structure fitting within the bound is reproduced with
equal content. -/
theorem c9_limitObjectDepth_spec :
    ∀ maxDepth : Nat,
      (∀ (v : Value) (d : Nat), maxDepth ≤ d → limitObjectDepth maxDepth v d = v) ∧
      (∀ (s : String) (d : Nat), d < maxDepth → limitObjectDepth maxDepth (vOid s) d = vObj []) ∧
      (∀ (v : Value) (d : Nat), oidFree v = true → d + vdepth v ≤ maxDepth →
        limitObjectDepth maxDepth v d = v) := by
  intro maxD
  refine ⟨fun v d h => limit_id_of_le maxD v d h, fun s d h => ?_,
    fun v d h1 h2 => limit_id_of_fits maxD (sizeOf v) v d le_rfl h1 h2⟩
  unfold limitObjectDepth
  rw [if_neg (by push_neg; exact ⟨by simp [jsTruthy], by simp [typeofIsObject], h⟩)]

lemma connectDB_fatal_iff (maxA delay : Nat) :
    ∀ (script : List Bool) (counter : Nat), counter < maxA →
      maxA ≤ counter + script.length →
      ((connectDB maxA delay counter script).map Prod.fst
          = some (.fatalError ("Max reconnection attempts (" ++ toString maxA ++ ") reached"))
        ↔ (script.take (maxA - counter)).all (fun b => !b)) := by
  intro script
  induction script with
  | nil =>
      intro c h1 h2
      exfalso
      simp only [List.length_nil, Nat.add_zero] at h2
      omega
  | cons b rest ih =>
      intro c h1 h2
      have htake : maxA - c = (maxA - (c + 1)) + 1 := by omega
      cases b
      · by_cases hm : maxA ≤ c + 1
        · have hred : connectDB maxA delay c (false :: rest)
              = some (.fatalError ("Max reconnection attempts (" ++ toString maxA
                  ++ ") reached"), 0) := by
            simp [connectDB, hm]
          rw [hred, htake]
          have h0 : maxA - (c + 1) = 0 := by omega
          simp [h0]
        · have hred : connectDB maxA delay c (false :: rest)
              = (connectDB maxA delay (c + 1) rest).map (fun r => (r.1, delay + r.2)) := by
            simp [connectDB, hm]
          rw [hred, htake, Option.map_map]
          have hcomp : (Prod.fst ∘ fun r : ConnectOutcome × Nat => (r.1, delay + r.2))
              = Prod.fst := by
            funext r
            rfl
          rw [hcomp, List.take_succ_cons]
          simp only [List.all_cons, Bool.not_false, Bool.true_and]
          exact ih (c + 1) (by omega) (by simp only [List.length_cons] at h2; omega)
      · have hred : connectDB maxA delay c (true :: rest) = some (.connected 0, 0) := by
          simp [connectDB]
        rw [hred, htake, List.take_succ_cons]
        simp

/-- C8: a successful attempt resets the retry counter to 0; a failed
attempt below the cap increments the counter and retries after sleeping
the fixed `reconnectDelay` (accumulated in the second component); starting
from a fresh counter, the run ends in the fatal `Max reconnection
attempts` error exactly when the first `maxReconnectAttempts` attempts all
fail; and a fatal error propagates out of `initialize` before any
subscription step runs. -/
theorem c8_connectDB_spec :
    ∀ (maxA delay : Nat),
      (∀ (counter : Nat) (rest : List Bool),
        connectDB maxA delay counter (true :: rest) = some (.connected 0, 0)) ∧
      (∀ (counter : Nat) (rest : List Bool), counter + 1 < maxA →
        connectDB maxA delay counter (false :: rest)
          = (connectDB maxA delay (counter + 1) rest).map (fun r => (r.1, delay + r.2))) ∧
      (∀ script : List Bool, 0 < maxA → maxA ≤ script.length →
        ((connectDB maxA delay 0 script).map Prod.fst
            = some (.fatalError ("Max reconnection attempts (" ++ toString maxA ++ ") reached"))
          ↔ (script.take maxA).all (fun b => !b))) ∧
      (∀ (script : List Bool) (m : String) (t : Nat),
        connectDB maxA delay 0 script = some (.fatalError m, t) →
        initializeConnects maxA delay script = some (.error m)) := by
  intro maxA delay
  refine ⟨fun c rest => rfl, fun c rest h => ?_, fun script h1 h2 => ?_,
    fun script m t h => ?_⟩
  · have hm : ¬ maxA ≤ c + 1 := by omega
    simp [connectDB, hm]
  · have hiff := connectDB_fatal_iff maxA delay script 0 h1 (by simpa using h2)
    simpa using hiff
  · simp [initializeConnects, h]

end CSM
